import Mathlib

/-!
Verification development for the typecheck result pipeline of
packages/vitest/src/typescript/parser.ts: the Typechecker class, which
correlates diagnostics of an external type checker with test definitions,
builds synthetic typecheck tasks, and maintains a watch-mode snapshot.

The embedding follows the TypeScript source. Code that lives in sibling
modules that are not part of the excerpt (the diagnostic parser in ./parse,
createIndexMap in ./utils, collectTests in ./collect, the source-map-js
SourceMapConsumer, and path resolution) is either taken as an input of the
model (a field of the context) or modelled from the specification; such
definitions carry a doc comment saying so.

Machine integers do not occur: all positions, offsets and counters are
unbounded in the source (JavaScript numbers used as array indices and
1-based text coordinates), so Nat is used directly. Mutation of shared
objects (the published snapshot, suite task lists) is made explicit: the
watch-mode session is a step machine over a store of snapshot values, and
calls of suite.tasks.push are recorded as an ordered list of push events.
-/

namespace Vitest

/-- RunMode models the mode strings of tasks and suites: run, only, skip, todo. -/
inductive RunMode
| run
| only
| skip
| todo
deriving DecidableEq, Repr

/-- ResState models the result state of a task: the string fail, or the mode
string itself (the source writes: mode === run or only ? fail : mode). -/
inductive ResState
| fail
| mode (m : RunMode)
deriving DecidableEq, Repr

/-- ParsedStack models the single stack frame built for a TypeCheckError
(lines 149-158 of parser.ts): file, line, column, method and sourcePos. -/
structure ParsedStack where
  file : String
  line : Nat
  column : Nat
  method : String
  sourcePos : Option (Nat × Nat)
deriving DecidableEq, Repr

/-- TypeCheckError models the error class of parser.ts lines 12-18: a name
(always the string TypeCheckError), a message and a list of parsed stacks. -/
structure TypeCheckError where
  name : String
  message : String
  «stacks» : List ParsedStack
deriving DecidableEq, Repr

/-- TscErrorInfo models the parsed raw diagnostic record: 1-based line and
column as reported by the checker, and the message text. Only the fields
read by parser.ts are kept. -/
structure TscErrorInfo where
  line : Nat
  column : Nat
  errMsg : String
deriving DecidableEq, Repr

/-- ErrorPair models one element of the lists stored in the typesErrors map of
parseTscLikeOutput: the synthesized error together with the raw diagnostic. -/
structure ErrorPair where
  error : TypeCheckError
  originalError : TscErrorInfo
deriving DecidableEq, Repr

/-- FileNode is the projection of a vitest File object that this core reads:
its name and its mode. Children pushed into it are recorded as push events. -/
structure FileNode where
  name : String
  mode : RunMode
deriving DecidableEq, Repr

/-- SuiteNode is the projection of a vitest Suite object that this core reads:
its name and its mode. Children pushed into it are recorded as push events. -/
structure SuiteNode where
  name : String
  mode : RunMode
deriving DecidableEq, Repr

/-- Definition models one entry of the definitions array of a collected file:
a start offset, an end offset, and the owning task (a suite). -/
structure Definition where
  start : Nat
  «end» : Nat
  task : SuiteNode
deriving DecidableEq, Repr

/-- Owner is the value of the suite variable at line 109 of parser.ts: either
the task of a located definition, or the file itself as fallback. -/
inductive Owner
| file (f : FileNode)
| task (s : SuiteNode)
deriving DecidableEq, Repr

/-- Owner.mode reads the mode of the owning suite or file. -/
def Owner.mode : Owner → RunMode
| .file f => f.mode
| .task s => s.mode

/-- SMapping models one decoded source map mapping of source-map-js: a source
name, an original position and a generated position. -/
structure SMapping where
  source : String
  originalLine : Nat
  originalColumn : Nat
  generatedLine : Nat
  generatedColumn : Nat
deriving DecidableEq, Repr

/-- origPos of a mapping as a pair. -/
def origPos (m : SMapping) : Nat × Nat := (m.originalLine, m.originalColumn)

/-- genPos of a mapping as a pair. -/
def genPos (m : SMapping) : Nat × Nat := (m.generatedLine, m.generatedColumn)

/-- posLe is the at-or-before order on positions: lexicographic on
(line, column). -/
def posLe (a b : Nat × Nat) : Bool :=
  decide (a.1 < b.1) || (decide (a.1 = b.1) && decide (a.2 ≤ b.2))

/-- posLt is the strictly-before order on positions. -/
def posLt (a b : Nat × Nat) : Bool :=
  decide (a.1 < b.1) || (decide (a.1 = b.1) && decide (a.2 < b.2))

/-- pickBest keeps, of an accumulator and a new mapping, the one with the
larger key position, breaking key ties towards the smaller tie position.
This mirrors the greatest-lower-bound binary search of source-map-js, which
lands on the first element of a run of equal keys in a list sorted by key
and then tie position. -/
def pickBest (key tie : SMapping → Nat × Nat) (best : Option SMapping) (m : SMapping) : Option SMapping :=
  match best with
  | none => some m
  | some b =>
    if posLt (key b) (key m) then some m
    else if decide (key b = key m) && posLt (tie m) (tie b) then some m
    else some b

/-- bestCandidate folds pickBest over a candidate list. -/
def bestCandidate (key tie : SMapping → Nat × Nat) (l : List SMapping) : Option SMapping :=
  l.foldl (pickBest key tie) none

/-- Modelled from the spec: standard source-map position lookup semantics
(nearest mapping at or before the given position) for
SourceMapConsumer.generatedPositionFor of source-map-js, which is an external
dependency of parser.ts. The needle holds original (authored) coordinates of
the given source; the result is the generated position of the nearest mapping
of that source whose original position is at or before the needle, and the
null position (modelled as none) when no mapping qualifies. -/
def generatedPositionFor (mappings : List SMapping) (source : String) (line column : Nat) : Option (Nat × Nat) :=
  match bestCandidate origPos genPos
      (mappings.filter (fun m => decide (m.source = source) && posLe (origPos m) (line, column))) with
  | some m => some (genPos m)
  | none => none

/-- specTranslateGeneratedToOriginal follows the words of the claim and of
spec section 4.2, not the source: it translates a generated (checked)
position to the nearest mapped original (authored) position at or before it.
It exists only to be compared with the lookup the source performs. -/
def specTranslateGeneratedToOriginal (mappings : List SMapping) (p : Nat × Nat) : Option (Nat × Nat) :=
  match bestCandidate genPos origPos (mappings.filter (fun m => posLe (genPos m) p)) with
  | some m => some (origPos m)
  | none => none

/-- lookupPosition models lines 102-106 of parser.ts: with a source map
consumer present, originalPos is the generatedPositionFor lookup of the
reported position (which always yields an object, possibly with null fields,
modelled as none); with no map, the reported position is used unchanged. -/
def lookupPosition (map : Option (List SMapping)) (path : String) (info : TscErrorInfo) : Option (Nat × Nat) :=
  match map with
  | none => some (info.line, info.column)
  | some mappings => generatedPositionFor mappings path info.line info.column

/-- posKey renders the template literal of line 107 of parser.ts: the string
line:column, where a null position renders as null:null. -/
def posKey : Option (Nat × Nat) → String
| some (l, c) => s!"{l}:{c}"
| none => "null:null"

/-- alookup models lookup in a JavaScript Map or plain object keyed by
strings: the value of the first (unique) entry with the given key. -/
def alookup {α : Type} : List (String × α) → String → Option α
| [], _ => none
| (k, v) :: rest, key => if k = key then some v else alookup rest key

/-- mapSet models Map.set and object index assignment of JavaScript: an
existing key keeps its position and gets the new value, a new key is
appended at the end. -/
def mapSet {α : Type} : List (String × α) → String → α → List (String × α)
| [], key, v => [(key, v)]
| (k, w) :: rest, key, v =>
  if k = key then (key, v) :: rest else (k, w) :: mapSet rest key v

/-- dedupeAux keeps the first occurrence of each element, skipping elements
already seen. -/
def dedupeAux (seen : List String) : List String → List String
| [] => []
| x :: xs => if x ∈ seen then dedupeAux seen xs else x :: dedupeAux (x :: seen) xs

/-- dedupe models the construction new Set(this.files) of line 74 of
parser.ts together with its insertion-order iteration: every requested file
once, in the order first requested. -/
def dedupe (l : List String) : List String := dedupeAux [] l

/-- defGe orders definitions by descending start offset; it is the order
produced by the comparator (a, b) => b.start - a.start at line 90. -/
def defGe (a b : Definition) : Prop := b.start ≤ a.start

instance : DecidableRel defGe := fun a b => Nat.decLe b.start a.start

instance : IsTotal Definition defGe := ⟨fun a b => Nat.le_total b.start a.start⟩

instance : IsTrans Definition defGe := ⟨fun _ _ _ h1 h2 => Nat.le_trans h2 h1⟩

/-- sortDefinitions models line 90 of parser.ts: the definitions array sorted
stably by descending start offset (JavaScript Array.prototype.sort is stable;
it is modelled by stable insertion sort). -/
def sortDefinitions (defs : List Definition) : List Definition :=
  List.insertionSort defGe defs

/-- containsOffset is the containment test of line 108: start at or below the
offset and end at or above it (a closed interval). -/
def containsOffset (d : Definition) (i : Nat) : Bool :=
  decide (d.start ≤ i) && decide (i ≤ d.«end»)

/-- findDefinition models the conjunct at line 108: with a null index no
definition is searched, otherwise the first containing definition of the
sorted array is taken. -/
def findDefinition (sortedDefinitions : List Definition) : Option Nat → Option Definition
| none => none
| some index => sortedDefinitions.find? (fun d => containsOffset d index)

/-- suiteFor models lines 108-109: the task of the located definition, or the
file itself when none was located. -/
def suiteFor (file : FileNode) (sortedDefinitions : List Definition) (index : Option Nat) : Owner :=
  match findDefinition sortedDefinitions index with
  | some d => Owner.task d.task
  | none => Owner.file file

/-- definitionOwnerFor composes the index map lookup of line 107 with
suiteFor, over the pre-sorted definitions. -/
def definitionOwnerFor (file : FileNode) (defs : List Definition) (indexMap : List (String × Nat)) (key : String) : Owner :=
  suiteFor file (sortDefinitions defs) (alookup indexMap key)

/-- taskStateOf is the ternary of lines 96 and 110 of parser.ts: fail for an
actively running mode, otherwise the mode itself. -/
def taskStateOf (m : RunMode) : ResState :=
  if m = RunMode.run ∨ m = RunMode.only then ResState.fail else ResState.mode m

/-- SyntheticTask models the task literal of lines 111-122 of parser.ts. -/
structure SyntheticTask where
  type : String
  id : String
  name : String
  mode : RunMode
  file : FileNode
  suite : Owner
  resultState : ResState
  resultError : Option TypeCheckError
deriving DecidableEq, Repr

/-- mkSyntheticTask builds the task literal of lines 110-122: type typecheck,
id the index as a string, name the 1-based ordinal, mode of the owning suite,
and a result that carries the error exactly when the state is fail. -/
def mkSyntheticTask (idx : Nat) (file : FileNode) (suite : Owner) (error : TypeCheckError) : SyntheticTask :=
  let state := taskStateOf suite.mode
  { type := "typecheck"
    id := toString idx
    name := s!"error expect {idx + 1}"
    mode := suite.mode
    file := file
    suite := suite
    resultState := state
    resultError := if state = ResState.fail then some error else none }

/-- ChainNode is one node of a single-parent ancestor chain as walked by
markFailed: its mode, its result state (the result object of the source holds
only a state here), and the names of its child tasks, which markFailed never
touches. -/
structure ChainNode where
  mode : RunMode
  result : Option ResState
  tasks : List String
deriving DecidableEq, Repr

/-- markFailed models lines 94-100 of parser.ts over an explicit ancestor
chain (the node itself followed by its strict ancestors up to the root): each
node gets result state fail when its mode is run or only, otherwise its own
mode, and the walk recurses on the rest of the chain. -/
def markFailed : List ChainNode → List ChainNode
| [] => []
| t :: ancestors => { t with result := some (taskStateOf t.mode) } :: markFailed ancestors

/-- GlobalState carries the one observable global parser.ts touches:
Error.stackTraceLimit. -/
structure GlobalState where
  stackTraceLimit : Nat
deriving DecidableEq, Repr

/-- frameOf is the one explicitly built stack frame of lines 149-158: the
resolved file path, the reported line and column, an empty method, and a
sourcePos repeating line and column. -/
def frameOf (filepath : String) (info : TscErrorInfo) : ParsedStack :=
  { file := filepath, line := info.line, column := info.column,
    method := "", sourcePos := some (info.line, info.column) }

/-- buildTypeCheckError models lines 145-164 of parser.ts for one raw
diagnostic: the current stackTraceLimit is saved, set to 0, the error is
constructed with exactly one explicitly built stack frame, and the limit is
restored. The returned state is the global state after construction. -/
def buildTypeCheckError (g : GlobalState) (filepath : String) (info : TscErrorInfo) : ErrorPair × GlobalState :=
  let limit := g.stackTraceLimit
  let g1 : GlobalState := { stackTraceLimit := 0 }
  let error : TypeCheckError :=
    { name := "TypeCheckError"
      message := info.errMsg
      «stacks» := [frameOf filepath info] }
  let g2 : GlobalState := { g1 with stackTraceLimit := limit }
  ({ error := error, originalError := info }, g2)

/-- buildSuiteErrors models the errors.map of lines 145-165 for one file,
threading the global state left to right. -/
def buildSuiteErrors (filepath : String) : GlobalState → List TscErrorInfo → List ErrorPair × GlobalState
| g, [] => ([], g)
| g, info :: rest =>
  let (pair, g1) := buildTypeCheckError g filepath info
  let (pairs, g2) := buildSuiteErrors filepath g1 rest
  (pair :: pairs, g2)

/-- FileInformation models the record produced by collectTests of ./collect
for one file: its path, its File object, its definition spans, an optional
source map and the parsed text; see spec section 6. -/
structure FileInformation where
  filepath : String
  file : FileNode
  definitions : List Definition
  map : Option (List SMapping)
  parsed : String
deriving DecidableEq, Repr

/-- Ctx bundles the external collaborators of the Typechecker that the
claims do not depend on internally: the requested files (this.files), path
resolution against the configured root (the resolve of pathe), the diagnostic
parser, and per-file definition collection. -/
structure Ctx where
  root : String
  files : List String
  /-- resolve models resolve(this.ctx.config.root, path) of line 144: an
  arbitrary resolution function supplied as input. -/
  resolve : String → String
  /-- Modelled from the spec: the Diagnostic Parser of section 4.1, standing
  in for getRawErrsMapFromTsCompile of ./parse, which is not in src: from the
  accumulated output text, a mapping from file path as written by the tool to
  the ordered raw diagnostics of that file. Supplied as an input function. -/
  rawErrs : String → List (String × List TscErrorInfo)
  /-- Modelled from the spec: collectDefinitions of section 6, standing in
  for collectTests of ./collect, which is not in src: per-file static
  definition extraction, null (none) when the file yields no collectible
  definitions. -/
  collect : String → Option FileInformation

/-- parseEntriesAux folds the errorsMap.forEach of lines 143-167: each raw
path is resolved, its errors are built (threading the stack trace limit),
and the result is stored in the typesErrors map with Map.set semantics. -/
def parseEntriesAux (ctx : Ctx) : GlobalState → List (String × List TscErrorInfo) → List (String × List ErrorPair) → List (String × List ErrorPair) × GlobalState
| g, [], acc => (acc, g)
| g, (path, errors) :: rest, acc =>
  let filepath := ctx.resolve path
  let (suiteErrors, g1) := buildSuiteErrors filepath g errors
  parseEntriesAux ctx g1 rest (mapSet acc filepath suiteErrors)

/-- parseTscLikeOutputSt models parseTscLikeOutput of lines 140-169,
returning the typesErrors map together with the global state after the
call. -/
def parseTscLikeOutputSt (ctx : Ctx) (g : GlobalState) (output : String) : List (String × List ErrorPair) × GlobalState :=
  parseEntriesAux ctx g (ctx.rawErrs output) []

/-- indexMapGo walks the characters of a text, mapping each line:column
position (1-based) to its linear offset; a newline advances the line. -/
def indexMapGo : List Char → Nat → Nat → Nat → List (String × Nat)
| [], _, _, _ => []
| c :: cs, index, line, column =>
  (s!"{line}:{column}", index) ::
    (if c = '\n' then indexMapGo cs (index + 1) (line + 1) 1
     else indexMapGo cs (index + 1) line (column + 1))

/-- Modelled from the spec: the Definition Index of section 4.3, standing in
for createIndexMap of ./utils, which is not in src: built once per file from
its text, mapping line:column keys to linear character offsets, with exact
string key lookup. -/
def createIndexMap (source : String) : List (String × Nat) :=
  indexMapGo source.toList 0 1 1

/-- PushEvent records one call of suite.tasks.push at line 125 of parser.ts:
the requested file path being processed, the owner pushed into, and the
synthetic task. The source mutates the shared suite object; the model records
the ordered sequence of those mutations. -/
structure PushEvent where
  path : String
  owner : Owner
  task : SyntheticTask
deriving DecidableEq, Repr

/-- buildTasks models the errors.forEach of lines 101-126 for one file: for
the idx-th diagnostic, translate the position, look it up in the index map,
locate the owning suite, build the synthetic task, and push it. The failure
propagation of line 124 walks the suite ancestors and is modelled separately
by markFailed. -/
def buildTasks (path : String) (file : FileNode) (sortedDefinitions : List Definition) (indexMap : List (String × Nat)) (map : Option (List SMapping)) : Nat → List ErrorPair → List PushEvent
| _, [] => []
| idx, pair :: rest =>
  let originalPos := lookupPosition map path pair.originalError
  let index := alookup indexMap (posKey originalPos)
  let suite := suiteFor file sortedDefinitions index
  let task := mkSyntheticTask idx file suite pair.error
  { path := path, owner := suite, task := task } ::
    buildTasks path file sortedDefinitions indexMap map (idx + 1) rest

/-- processFileErrors models lines 90-126 for one requested file that has
errors: sort the definitions by descending start, build the index map from
the parsed text, and process each diagnostic in order. -/
def processFileErrors (path : String) (fi : FileInformation) (errors : List ErrorPair) : List PushEvent :=
  buildTasks path fi.file (sortDefinitions fi.definitions) (createIndexMap fi.parsed) fi.map 0 errors

/-- processTestFiles models the testFiles.forEach of lines 84-127: each
requested file is looked up in the tests record (a missing entry makes the
destructuring at line 85 throw, modelled as Except.error), its File object is
pushed into files, and its diagnostics, when present, are processed. -/
def processTestFiles (tests : List (String × FileInformation)) (typeErrors : List (String × List ErrorPair)) : List String → Except Unit (List FileNode × List PushEvent)
| [] => Except.ok ([], [])
| path :: rest =>
  match alookup tests path with
  | none => Except.error ()
  | some fi =>
    match processTestFiles tests typeErrors rest with
    | Except.error e => Except.error e
    | Except.ok (files, pushes) =>
      match alookup typeErrors path with
      | none => Except.ok (fi.file :: files, pushes)
      | some errors => Except.ok (fi.file :: files, processFileErrors path fi errors ++ pushes)

/-- collectSourceErrors models lines 129-132: the errors of every parsed path
that is not a requested file are appended, in map order, to sourceErrors. -/
def collectSourceErrors (testFiles : List String) : List (String × List ErrorPair) → List TypeCheckError
| [] => []
| (path, errors) :: rest =>
  if path ∈ testFiles then collectSourceErrors testFiles rest
  else errors.map (fun pair => pair.error) ++ collectSourceErrors testFiles rest

/-- PreparedResults is the value prepareResults resolves with (lines
134-137), extended with the ordered record of suite.tasks.push calls
performed along the way. -/
structure PreparedResults where
  files : List FileNode
  sourceErrors : List TypeCheckError
  pushes : List PushEvent
deriving DecidableEq, Repr

/-- collectTests models collectTests of lines 59-70: collect every requested
file, skip null results, and key the record by the filepath field of the
collected data, with object assignment semantics. -/
def collectTests (ctx : Ctx) : List (String × FileInformation) :=
  ctx.files.foldl
    (fun acc p =>
      match ctx.collect p with
      | none => acc
      | some data => mapSet acc data.filepath data)
    []

/-- prepareResults models prepareResults of lines 72-138. The tests record is
passed explicitly: some t models a non-null this._tests, none models the null
set on a watch rerun, in which case collectTests runs. The result carries
files in requested order, the source errors, and the recorded pushes; a
missing tests entry for a requested file yields Except.error, as the source
throws there. -/
def prepareResults (ctx : Ctx) (g : GlobalState) (tests0 : Option (List (String × FileInformation))) (output : String) : Except Unit PreparedResults :=
  let typeErrors := (parseTscLikeOutputSt ctx g output).1
  let testFiles := dedupe ctx.files
  let tests := match tests0 with
    | some t => t
    | none => collectTests ctx
  match processTestFiles tests typeErrors testFiles with
  | Except.error e => Except.error e
  | Except.ok (files, pushes) =>
    Except.ok { files := files, sourceErrors := collectSourceErrors testFiles typeErrors, pushes := pushes }

/-- WEvent is an observable event of the watch-mode chunk handler: the
onWatcherRerun callback firing, the pass-complete marker being acted on, and
the onParseEnd callback firing with a published snapshot address. -/
inductive WEvent
| rerun
| passComplete
| parseEnd (addr : Nat)
deriving DecidableEq, Repr

/-- ErrorsCacheV is the value of an ErrorsCache snapshot object: its files
and sourceErrors arrays (lines 20-23 of parser.ts). -/
structure ErrorsCacheV where
  files : List FileNode
  sourceErrors : List TypeCheckError
deriving DecidableEq, Repr

/-- WatchState is the session state of the watch-mode handler of lines
196-216: the accumulated output buffer, the rerun flag, a store of snapshot
objects addressed by index (object identity made explicit), the address held
by this._result, the addresses published through onParseEnd in order, the
cached tests record (none models null), and the emitted events. -/
structure WatchState where
  output : String
  rerunTriggered : Bool
  store : List ErrorsCacheV
  resultAddr : Nat
  published : List Nat
  tests : Option (List (String × FileInformation))
  events : List WEvent
deriving DecidableEq, Repr

/-- startsWithChars tests whether the second list starts with the first. -/
def startsWithChars : List Char → List Char → Bool
| [], _ => true
| _ :: _, [] => false
| p :: ps, c :: cs => decide (c = p) && startsWithChars ps cs

/-- containsChars tests whether some suffix of the second list starts with
the first list. -/
def containsChars (sub : List Char) : List Char → Bool
| [] => startsWithChars sub []
| c :: cs => startsWithChars sub (c :: cs) || containsChars sub cs

/-- includesSub models String.prototype.includes of line 201. -/
def includesSub (s sub : String) : Bool := containsChars sub.toList s.toList

/-- dropPrefixChars consumes the given prefix, or fails. -/
def dropPrefixChars : List Char → List Char → Option (List Char)
| [], cs => some cs
| _ :: _, [] => none
| p :: ps, c :: cs => if c = p then dropPrefixChars ps cs else none

/-- isWordChar is the word character class of the regular expression
at line 208: ASCII letters, digits and underscore. -/
def isWordChar (c : Char) : Bool := c.isAlphanum || c = '_'

/-- isRegexDot is the any-character class of a JavaScript regular expression
dot, which excludes line terminators. -/
def isRegexDot (c : Char) : Bool :=
  !(c = '\n' || c = '\r' || c = Char.ofNat 0x2028 || c = Char.ofNat 0x2029)

/-- matchSTailDot matches the tail s* . followed by the literal Watching for
(with its leading space), with the backtracking a regular expression engine
performs over the s run. -/
def matchSTailDot : List Char → Bool
| [] => false
| c :: cs =>
  (isRegexDot c && startsWithChars " Watching for".toList cs) ||
    (decide (c = 's') && matchSTailDot cs)

/-- matchFoundTail matches, at the head of the list, the regular expression
of line 208: Found, a space, one or more word characters, the literal space
error, zero or more s, any character, then the literal Watching for with its
leading space. The greedy word run needs no backtracking because the
character after it must be a space. -/
def matchFoundTail (cs : List Char) : Bool :=
  match dropPrefixChars "Found ".toList cs with
  | none => false
  | some cs1 =>
    match cs1 with
    | [] => false
    | c :: cs2 =>
      isWordChar c &&
        (match dropPrefixChars " error".toList (cs2.dropWhile isWordChar) with
         | none => false
         | some cs3 => matchSTailDot cs3)

/-- containsFoundMarker searches every suffix for a match of the pass
complete pattern. -/
def containsFoundMarker : List Char → Bool
| [] => false
| c :: cs => matchFoundTail (c :: cs) || containsFoundMarker cs

/-- foundErrorsWatching models the unanchored regular expression test of line
208 of parser.ts against the accumulated output. -/
def foundErrorsWatching (s : String) : Bool := containsFoundMarker s.toList

/-- appendChunk models line 198: the chunk is appended to the buffer. -/
def appendChunk (s : WatchState) (chunk : String) : WatchState :=
  { s with output := s.output ++ chunk }

/-- rerunCheck models lines 201-207: when the buffer holds the file change
marker and the flag is clear, onWatcherRerun fires, the fields of the object
this._result currently points at are reset in place (an in-place store
update at the current address), the tests cache is dropped, and the flag is
set. -/
def rerunCheck (s : WatchState) : WatchState :=
  if includesSub s.output "File change detected" && !s.rerunTriggered then
    { s with events := s.events ++ [WEvent.rerun]
             store := s.store.set s.resultAddr { files := [], sourceErrors := [] }
             tests := none
             rerunTriggered := true }
  else s

/-- publishResult models lines 210-213 once preparation settles: a resolved
preparation allocates a fresh snapshot object at a fresh address, repoints
this._result at it, and fires onParseEnd with it; a rejected preparation
(the source rejects the promise at line 85) publishes nothing. -/
def publishResult (s : WatchState) : Except Unit PreparedResults → WatchState
| Except.ok result =>
  { s with store := s.store ++ [({ files := result.files, sourceErrors := result.sourceErrors } : ErrorsCacheV)]
           resultAddr := s.store.length
           published := s.published ++ [s.store.length]
           events := s.events ++ [WEvent.passComplete, WEvent.parseEnd s.store.length] }
| Except.error _ => { s with events := s.events ++ [WEvent.passComplete] }

/-- passCompleteCheck models lines 208-215: when the pass complete pattern
matches, the flag clears, results are prepared (collecting tests first when
the cache is null, as collectTests also repopulates this._tests), the
prepared snapshot is published, and the buffer resets. The synchronous flag
clear and buffer reset happen whether or not preparation succeeds. -/
def passCompleteCheck (ctx : Ctx) (g : GlobalState) (s : WatchState) : WatchState :=
  if foundErrorsWatching s.output then
    let s1 := { s with rerunTriggered := false }
    let tests := match s1.tests with
      | some t => t
      | none => collectTests ctx
    let s2 := { s1 with tests := some tests }
    { publishResult s2 (prepareResults ctx g (some tests) s2.output) with output := "" }
  else s

/-- stepChunk models one invocation of the data handler of lines 197-216 in
watch mode: append the chunk, run the rerun check, then the pass complete
check. -/
def stepChunk (ctx : Ctx) (g : GlobalState) (s : WatchState) (chunk : String) : WatchState :=
  passCompleteCheck ctx g (rerunCheck (appendChunk s chunk))

/-- runChunks folds stepChunk over a sequence of chunks. -/
def runChunks (ctx : Ctx) (g : GlobalState) : WatchState → List String → WatchState
| s, [] => s
| s, c :: cs => runChunks ctx g (stepChunk ctx g s c) cs

/-- initWatchState is the session state right after start() registers the
handler: empty buffer, clear flag, the initial empty snapshot at address 0
held by this._result, nothing published, and the initial empty tests record
(the constructor initializes this._tests to an empty object). -/
def initWatchState : WatchState :=
  { output := ""
    rerunTriggered := false
    store := [{ files := [], sourceErrors := [] }]
    resultAddr := 0
    published := []
    tests := some []
    events := [] }

/-- flagAfter folds the effect of a trace of events on the rerun flag. -/
def flagAfter (b : Bool) (evs : List WEvent) : Bool :=
  evs.foldl
    (fun acc e =>
      match e with
      | WEvent.rerun => true
      | WEvent.passComplete => false
      | WEvent.parseEnd _ => acc)
    b

/-- okTrace checks that, scanning a trace with the given initial flag, every
rerun event happens with the flag clear: at most one rerun per
change-to-completion cycle. -/
def okTrace : Bool → List WEvent → Bool
| _, [] => true
| b, WEvent.rerun :: t => !b && okTrace true t
| _, WEvent.passComplete :: t => okTrace false t
| b, WEvent.parseEnd _ :: t => okTrace b t

/-! Concrete data used by witnesses and counterexamples. -/

/-- gEx is a concrete global state with a nonzero stack trace limit. -/
def gEx : GlobalState := { stackTraceLimit := 10 }

/-- mapC1 is a source map with a single mapping: original position (1, 0) of
a.ts maps to generated position (5, 0). -/
def mapC1 : SMapping :=
  { source := "a.ts", originalLine := 1, originalColumn := 0,
    generatedLine := 5, generatedColumn := 0 }

/-- infoC1 is a diagnostic reported at position (1, 0). -/
def infoC1 : TscErrorInfo := { line := 1, column := 0, errMsg := "msg" }

/-- suiteA is the outer suite of the nested definitions example. -/
def suiteA : SuiteNode := { name := "A", mode := RunMode.run }

/-- suiteB is the inner suite of the nested definitions example. -/
def suiteB : SuiteNode := { name := "B", mode := RunMode.run }

/-- fileEx is a concrete file under test. -/
def fileEx : FileNode := { name := "a.ts", mode := RunMode.run }

/-- fiEx is concrete collected data for fileEx: ten characters of parsed
text, two disjoint definitions, and no source map. -/
def fiEx : FileInformation :=
  { filepath := "a.ts"
    file := fileEx
    definitions := [{ start := 0, «end» := 4, task := suiteA },
                    { start := 5, «end» := 9, task := suiteB }]
    map := none
    parsed := "abcdefghij" }

/-- errEx1 is a diagnostic at line 1 column 2 (offset 1, inside suiteA). -/
def errEx1 : ErrorPair :=
  { error := { name := "TypeCheckError", message := "e1", «stacks» := [] }
    originalError := { line := 1, column := 2, errMsg := "e1" } }

/-- errEx2 is a diagnostic at line 1 column 7 (offset 6, inside suiteB). -/
def errEx2 : ErrorPair :=
  { error := { name := "TypeCheckError", message := "e2", «stacks» := [] }
    originalError := { line := 1, column := 7, errMsg := "e2" } }

/-- ctxW is a concrete context for the watch machine: one requested file
whose collection succeeds, and a diagnostic parser that finds nothing. -/
def ctxW : Ctx :=
  { root := "/r"
    files := ["a.ts"]
    resolve := fun p => p
    rawErrs := fun _ => []
    collect := fun p => if p = "a.ts" then some fiEx else none }

/-- startW is a watch session state whose tests cache has been dropped (as
after a detected rerun), so that the next completed pass collects tests
afresh and publishes a snapshot holding the record of a.ts. -/
def startW : WatchState := { initWatchState with tests := none }

/-- ctx3 is a context whose single requested file yields no collectible
definitions: collection returns null. -/
def ctx3 : Ctx :=
  { root := "/r"
    files := ["a.ts"]
    resolve := fun p => p
    rawErrs := fun _ => []
    collect := fun _ => none }

/-- ctx5 is a context whose parser reports one diagnostic in the requested
file a.ts and one in the unrequested file b.ts. -/
def ctx5 : Ctx :=
  { root := "/r"
    files := ["a.ts"]
    resolve := fun p => p
    rawErrs := fun _ =>
      [("a.ts", [{ line := 1, column := 2, errMsg := "boom" }]),
       ("b.ts", [{ line := 2, column := 2, errMsg := "bad" }])]
    collect := fun p => if p = "a.ts" then some fiEx else none }

/-- tests5 is the collected tests record for ctx5. -/
def tests5 : List (String × FileInformation) := [("a.ts", fiEx)]

/-- nestedDefs is the nested spans example of the claim: spans 0 to 100 and
10 to 50, both containing offset 20. -/
def nestedDefs : List Definition :=
  [{ start := 0, «end» := 100, task := suiteA },
   { start := 10, «end» := 50, task := suiteB }]

/-- pairExA is the error pair parseTscLikeOutputSt builds for the a.ts
diagnostic of ctx5. -/
def pairExA : ErrorPair :=
  (buildTypeCheckError gEx "a.ts" { line := 1, column := 2, errMsg := "boom" }).1

/-- stateTwo is a watch state holding two snapshot objects, the older one
published and the newer one current. -/
def stateTwo : WatchState :=
  { output := ""
    rerunTriggered := false
    store := [{ files := [fileEx], sourceErrors := [] }, { files := [], sourceErrors := [] }]
    resultAddr := 1
    published := [0]
    tests := some []
    events := [] }

/-! Helper lemmas. -/

theorem find?_max_start (p : Definition → Bool) :
    ∀ (l : List Definition) (d : Definition), List.Pairwise defGe l → l.find? p = some d →
      ∀ x ∈ l, p x = true → x.start ≤ d.start := by
  intro l
  induction l with
  | nil => intro d _ h; cases h
  | cons a t ih =>
    intro d hpw hfind x hx hpx
    obtain ⟨ha, ht⟩ := List.pairwise_cons.mp hpw
    by_cases hpa : p a = true
    · rw [List.find?_cons_of_pos _ hpa] at hfind
      obtain rfl : a = d := by injection hfind
      rcases List.mem_cons.mp hx with rfl | hx2
      · exact Nat.le_refl _
      · exact ha x hx2
    · rw [List.find?_cons_of_neg _ (by simpa using hpa)] at hfind
      rcases List.mem_cons.mp hx with rfl | hx2
      · exact absurd hpx hpa
      · exact ih d ht hfind x hx2 hpx

theorem markFailed_fixes : ∀ chain : List ChainNode,
    markFailed (markFailed chain) = markFailed chain := by
  intro chain
  induction chain with
  | nil => rfl
  | cons t rest ih => simp [markFailed, ih]

/-! Claim theorems. -/

/-- C6: the ancestor-failure propagation markFailed is idempotent (a second
invocation on an already-marked chain changes nothing, so result states stay
fail where the mode runs), never touches the task collections of the nodes
(no duplicate entries are created), and is a total structural walk over any
finite single-parent ancestor chain (it terminates, preserving the chain
length). -/
theorem c6_markFailed_idempotent (chain : List ChainNode) :
    markFailed (markFailed chain) = markFailed chain ∧
    (markFailed chain).map ChainNode.tasks = chain.map ChainNode.tasks ∧
    (markFailed chain).length = chain.length := by
  refine ⟨markFailed_fixes chain, ?_, ?_⟩ <;>
    · induction chain with
      | nil => rfl
      | cons t rest ih => simp [markFailed, ih]

/-- C7: a synthetic task built for a diagnostic whose owning suite runs
(mode run or only) has result state fail and carries the error; one whose
owning suite has a non-running mode inherits that mode as its own mode and
result state and carries no error. -/
theorem c7_task_state (idx : Nat) (file : FileNode) (suite : Owner) (error : TypeCheckError) :
    ((suite.mode = RunMode.run ∨ suite.mode = RunMode.only) →
      (mkSyntheticTask idx file suite error).resultState = ResState.fail ∧
      (mkSyntheticTask idx file suite error).resultError = some error) ∧
    (¬(suite.mode = RunMode.run ∨ suite.mode = RunMode.only) →
      (mkSyntheticTask idx file suite error).mode = suite.mode ∧
      (mkSyntheticTask idx file suite error).resultState = ResState.mode suite.mode ∧
      (mkSyntheticTask idx file suite error).resultError = none) := by
  constructor
  · intro h
    simp [mkSyntheticTask, taskStateOf, h]
  · intro h
    simp [mkSyntheticTask, taskStateOf, h]

/-- Witness for C7 at a concrete input: suiteA runs, so the task fails and
carries the error. -/
theorem c7_task_state_witness :
    (mkSyntheticTask 0 fileEx (Owner.task suiteA) errEx1.error).resultState = ResState.fail ∧
    (mkSyntheticTask 0 fileEx (Owner.task suiteA) errEx1.error).resultError = some errEx1.error :=
  (c7_task_state 0 fileEx (Owner.task suiteA) errEx1.error).1 (Or.inl rfl)

/-- C4: the located definition for a diagnostic offset. A missing line:column
key attaches the diagnostic to the file; so does an offset contained in no
span. Otherwise the chosen definition is the first containing one of the
array sorted by descending start: it contains the offset, comes from the
input spans, and has the maximal start offset among all containing spans. In
particular, of the nested spans 0 to 100 and 10 to 50 at offset 20, the span
starting at 10 is chosen. -/
theorem c4_definition_selection (file : FileNode) (defs : List Definition)
    (indexMap : List (String × Nat)) (key : String) :
    (alookup indexMap key = none → definitionOwnerFor file defs indexMap key = Owner.file file) ∧
    (∀ i, alookup indexMap key = some i →
      ((∀ d ∈ defs, containsOffset d i = false) →
        definitionOwnerFor file defs indexMap key = Owner.file file) ∧
      (∀ d, (sortDefinitions defs).find? (fun x => containsOffset x i) = some d →
        definitionOwnerFor file defs indexMap key = Owner.task d.task ∧
        containsOffset d i = true ∧ d ∈ defs ∧
        ∀ x ∈ defs, containsOffset x i = true → x.start ≤ d.start)) ∧
    suiteFor file (sortDefinitions nestedDefs) (some 20) = Owner.task suiteB := by
  refine ⟨?_, ?_, rfl⟩
  · intro h
    simp [definitionOwnerFor, suiteFor, findDefinition, h]
  · intro i hi
    constructor
    · intro hnone
      have hfe : (sortDefinitions defs).find? (fun x => containsOffset x i) = none := by
        refine List.find?_eq_none.mpr ?_
        intro x hx
        have hxd : x ∈ defs := (List.mem_insertionSort defGe).mp hx
        simp [hnone x hxd]
      simp [definitionOwnerFor, suiteFor, findDefinition, hi, hfe]
    · intro d hd
      refine ⟨?_, by simpa using List.find?_some hd, ?_, ?_⟩
      · simp [definitionOwnerFor, suiteFor, findDefinition, hi, hd]
      · exact (List.mem_insertionSort defGe).mp (List.mem_of_find?_eq_some hd)
      · intro x hx hcx
        exact find?_max_start _ (sortDefinitions defs) d
          (List.sorted_insertionSort defGe defs) hd x
          ((List.mem_insertionSort defGe).mpr hx) hcx

/-- Witness for C4 at concrete inputs: an absent key attaches to the file,
and at offset 20 the find over the sorted nested spans returns the inner
span, which starts at 10, contains 20, and has maximal start. -/
theorem c4_definition_selection_witness :
    definitionOwnerFor fileEx nestedDefs [] "1:1" = Owner.file fileEx ∧
    (definitionOwnerFor fileEx nestedDefs [("1:1", 20)] "1:1" =
        Owner.task ({ start := 10, «end» := 50, task := suiteB } : Definition).task ∧
      containsOffset { start := 10, «end» := 50, task := suiteB } 20 = true ∧
      ({ start := 10, «end» := 50, task := suiteB } : Definition) ∈ nestedDefs ∧
      ∀ x ∈ nestedDefs, containsOffset x 20 = true →
        x.start ≤ ({ start := 10, «end» := 50, task := suiteB } : Definition).start) :=
  ⟨(c4_definition_selection fileEx nestedDefs [] "1:1").1 rfl,
   ((c4_definition_selection fileEx nestedDefs [("1:1", 20)] "1:1").2.1 20 rfl).2
     { start := 10, «end» := 50, task := suiteB } (by decide)⟩

/-- C8 counterexample: in a file with two diagnostics landing in two distinct
suites, the single synthetic task attached to suiteB is named with ordinal 2
(its index among the diagnostics of the file), not with ordinal 1 as its
position among the diagnostics of its owning suite would require. -/
theorem c8_counterexample :
    ((processFileErrors "a.ts" fiEx [errEx1, errEx2]).filter
        (fun pe => decide (pe.owner = Owner.task suiteB))).map (fun pe => pe.task.name) =
      ["error expect 2"] ∧
    ("error expect 2" : String) ≠ "error expect 1" := by decide

theorem buildTasks_ordinal (path : String) (file : FileNode) (sd : List Definition)
    (im : List (String × Nat)) (mp : Option (List SMapping)) :
    ∀ (errors : List ErrorPair) (k i : Nat), i < errors.length →
      ∃ pe, (buildTasks path file sd im mp k errors)[i]? = some pe ∧
        pe.task.name = s!"error expect {k + i + 1}" ∧ pe.task.id = toString (k + i) := by
  intro errors
  induction errors with
  | nil => intro k i h; cases h
  | cons pair rest ih =>
    intro k i h
    cases i with
    | zero =>
      simp only [buildTasks]
      exact ⟨_, List.getElem?_cons_zero, rfl, rfl⟩
    | succ j =>
      have h2 : j < rest.length := by simpa using h
      obtain ⟨pe, hget, hname, hid⟩ := ih (k + 1) j h2
      have e : k + 1 + j = k + (j + 1) := by omega
      rw [e] at hname hid
      exact ⟨pe, by simpa [buildTasks] using hget, hname, hid⟩

/-- C8 amended: the i-th synthetic task of a file (0-based over the
diagnostics of that file, in emission order) is named with the 1-based
ordinal i + 1 and carries id i, regardless of which suite owns it; the
ordinal counts the diagnostics of the file, not those of the owning suite. -/
theorem c8_amended_ordinal (path : String) (fi : FileInformation) (errors : List ErrorPair)
    (i : Nat) (h : i < errors.length) :
    ∃ pe, (processFileErrors path fi errors)[i]? = some pe ∧
      pe.task.name = s!"error expect {i + 1}" ∧ pe.task.id = toString i := by
  have := buildTasks_ordinal path fi.file (sortDefinitions fi.definitions)
    (createIndexMap fi.parsed) fi.map errors 0 i h
  simpa [processFileErrors] using this

/-- Witness for C8 amended at a concrete input: the first diagnostic of fiEx
yields the task named error expect 1 with id 0. -/
theorem c8_amended_ordinal_witness :
    ∃ pe, (processFileErrors "a.ts" fiEx [errEx1, errEx2])[0]? = some pe ∧
      pe.task.name = "error expect 1" ∧ pe.task.id = "0" :=
  c8_amended_ordinal "a.ts" fiEx [errEx1, errEx2] 0 (by decide)

theorem posLe_refl (a : Nat × Nat) : posLe a a = true := by
  simp [posLe]

theorem posLe_trans {a b c : Nat × Nat} (h1 : posLe a b = true) (h2 : posLe b c = true) :
    posLe a c = true := by
  simp only [posLe, Bool.or_eq_true, Bool.and_eq_true, decide_eq_true_eq] at h1 h2 ⊢
  omega

theorem posLe_of_posLt {a b : Nat × Nat} (h : posLt a b = true) : posLe a b = true := by
  simp only [posLt, posLe, Bool.or_eq_true, Bool.and_eq_true, decide_eq_true_eq] at h ⊢
  omega

theorem posLe_of_not_posLt {a b : Nat × Nat} (h : posLt a b = false) : posLe b a = true := by
  simp only [posLt, posLe, Bool.or_eq_true, Bool.and_eq_true, decide_eq_true_eq,
    Bool.or_eq_false_iff, Bool.and_eq_false_iff, decide_eq_false_iff_not] at h ⊢
  omega

theorem pickBest_step (key tie : SMapping → Nat × Nat) (b : Option SMapping) (x : SMapping) :
    ∃ c, pickBest key tie b x = some c ∧ (b = some c ∨ c = x) ∧
      posLe (key x) (key c) = true ∧
      ∀ bm, b = some bm → posLe (key bm) (key c) = true := by
  cases b with
  | none =>
    exact ⟨x, rfl, Or.inr rfl, posLe_refl _, fun bm h => by cases h⟩
  | some bm =>
    by_cases h1 : posLt (key bm) (key x) = true
    · refine ⟨x, by simp [pickBest, h1], Or.inr rfl, posLe_refl _, ?_⟩
      intro bm2 h
      obtain rfl : bm = bm2 := by injection h
      exact posLe_of_posLt h1
    · by_cases h2 : (decide (key bm = key x) && posLt (tie x) (tie bm)) = true
      · have hk : key bm = key x := by
          have := (Bool.and_eq_true _ _).mp h2
          exact decide_eq_true_eq.mp this.1
        refine ⟨x, ?_, Or.inr rfl, posLe_refl _, ?_⟩
        · simp [pickBest, h1, h2]
        · intro bm2 h
          obtain rfl : bm = bm2 := by injection h
          rw [hk]
          exact posLe_refl _
      · refine ⟨bm, ?_, Or.inl rfl, ?_, ?_⟩
        · simp [pickBest, h1, h2]
        · exact posLe_of_not_posLt (by simpa using h1)
        · intro bm2 h
          obtain rfl : bm = bm2 := by injection h
          exact posLe_refl _

theorem foldl_pickBest_spec (key tie : SMapping → Nat × Nat) :
    ∀ (l : List SMapping) (b : Option SMapping),
      (l.foldl (pickBest key tie) b = none → b = none ∧ l = []) ∧
      ∀ m, l.foldl (pickBest key tie) b = some m →
        (b = some m ∨ m ∈ l) ∧ (∀ x ∈ l, posLe (key x) (key m) = true) ∧
        ∀ bm, b = some bm → posLe (key bm) (key m) = true := by
  intro l
  induction l with
  | nil =>
    intro b
    refine ⟨fun h => ⟨h, rfl⟩, ?_⟩
    intro m hm
    exact ⟨Or.inl hm, by simp, fun bm hb => by rw [hb] at hm; injection hm with e; rw [e]; exact posLe_refl _⟩
  | cons x xs ih =>
    intro b
    obtain ⟨c, hc, hbc, hxc, hbm⟩ := pickBest_step key tie b x
    have hfold : (x :: xs).foldl (pickBest key tie) b = xs.foldl (pickBest key tie) (some c) := by
      simp [List.foldl_cons, hc]
    constructor
    · intro h
      rw [hfold] at h
      obtain ⟨h1, _⟩ := (ih (some c)).1 h
      cases h1
    · intro m hm
      rw [hfold] at hm
      obtain ⟨hmem, hall, hb2⟩ := (ih (some c)).2 m hm
      have hcm : posLe (key c) (key m) = true := hb2 c rfl
      refine ⟨?_, ?_, ?_⟩
      · rcases hmem with hcm2 | hmx
        · have : c = m := by injection hcm2
          subst this
          rcases hbc with hb | rfl
          · exact Or.inl hb
          · exact Or.inr (List.mem_cons_self _ _)
        · exact Or.inr (List.mem_cons_of_mem _ hmx)
      · intro y hy
        rcases List.mem_cons.mp hy with rfl | hy2
        · exact posLe_trans hxc hcm
        · exact hall y hy2
      · intro bm2 hb
        exact posLe_trans (hbm bm2 hb) hcm

/-- C1 counterexample: with a single mapping taking original position (1, 0)
of a.ts to generated position (5, 0), a diagnostic reported at (1, 0) is
looked up at position (5, 0) — a position strictly after the reported one —
while the translation the claim describes (generated to original, nearest at
or before) has no qualifying mapping at all and yields the null position. -/
theorem c1_counterexample :
    lookupPosition (some [mapC1]) "a.ts" infoC1 = some (5, 0) ∧
    posLe (5, 0) (infoC1.line, infoC1.column) = false ∧
    specTranslateGeneratedToOriginal [mapC1] (infoC1.line, infoC1.column) = none := by decide

/-- C1 amended: with no source map the reported position is used unchanged;
with a map, the position used for definition lookup is the
generatedPositionFor translation of the reported position treated as
original (authored) coordinates: the generated position of a mapping of the
same source whose original position is at or before the reported one and is
the nearest such (maximal among qualifying mappings) — a position that may
lie after the reported one; when no mapping of the source is at or before
the reported position, the lookup yields the null position. -/
theorem c1_amended_translation (mappings : List SMapping) (path : String) (info : TscErrorInfo) :
    lookupPosition none path info = some (info.line, info.column) ∧
    (∀ p, lookupPosition (some mappings) path info = some p →
      ∃ m, m ∈ mappings ∧ m.source = path ∧
        posLe (origPos m) (info.line, info.column) = true ∧ p = genPos m ∧
        ∀ x ∈ mappings, x.source = path → posLe (origPos x) (info.line, info.column) = true →
          posLe (origPos x) (origPos m) = true) ∧
    ((∀ m ∈ mappings, m.source ≠ path ∨ posLe (origPos m) (info.line, info.column) = false) →
      lookupPosition (some mappings) path info = none) := by
  refine ⟨rfl, ?_, ?_⟩
  · intro p hp
    simp only [lookupPosition, generatedPositionFor, bestCandidate] at hp
    set cands := mappings.filter
      (fun m => decide (m.source = path) && posLe (origPos m) (info.line, info.column)) with hcands
    cases hfold : cands.foldl (pickBest origPos genPos) none with
    | none => rw [hfold] at hp; cases hp
    | some m =>
      rw [hfold] at hp
      obtain ⟨hmem, hall, _⟩ := (foldl_pickBest_spec origPos genPos cands none).2 m hfold
      have hm : m ∈ cands := by
        rcases hmem with h | h
        · cases h
        · exact h
      rw [hcands] at hm
      obtain ⟨hmm, hpred⟩ := List.mem_filter.mp hm
      obtain ⟨hsrc, hle⟩ := (Bool.and_eq_true _ _).mp hpred
      refine ⟨m, hmm, decide_eq_true_eq.mp hsrc, hle, by injection hp with e; rw [e], ?_⟩
      intro x hx hxsrc hxle
      refine hall x ?_
      rw [hcands]
      exact List.mem_filter.mpr ⟨hx, by simp [hxsrc, hxle]⟩
  · intro h
    have hnil : mappings.filter
        (fun m => decide (m.source = path) && posLe (origPos m) (info.line, info.column)) = [] := by
      rw [List.filter_eq_nil_iff]
      intro m hm
      rcases h m hm with hs | hf
      · simp [hs]
      · simp [hf]
    simp [lookupPosition, generatedPositionFor, bestCandidate, hnil]

/-- Witness for C1 amended at a concrete input: the mapping of mapC1
qualifies at the reported position (1, 0) and the lookup yields its
generated position. -/
theorem c1_amended_translation_witness :
    ∃ m, m ∈ [mapC1] ∧ m.source = "a.ts" ∧
      posLe (origPos m) (infoC1.line, infoC1.column) = true ∧ ((5, 0) : Nat × Nat) = genPos m ∧
      ∀ x ∈ [mapC1], x.source = "a.ts" →
        posLe (origPos x) (infoC1.line, infoC1.column) = true →
        posLe (origPos x) (origPos m) = true :=
  (c1_amended_translation [mapC1] "a.ts" infoC1).2.1 (5, 0) (by decide)

theorem processTestFiles_ok (tests : List (String × FileInformation))
    (te : List (String × List ErrorPair)) :
    ∀ paths : List String, (∀ p ∈ paths, (alookup tests p).isSome) →
      ∃ files pushes, processTestFiles tests te paths = Except.ok (files, pushes) ∧
        List.Forall₂ (fun p f => ∃ fi, alookup tests p = some fi ∧ f = fi.file) paths files := by
  intro paths
  induction paths with
  | nil => exact fun _ => ⟨[], [], rfl, List.Forall₂.nil⟩
  | cons q rest ih =>
    intro h
    obtain ⟨fi, hfi⟩ := Option.isSome_iff_exists.mp (h q (List.mem_cons_self _ _))
    obtain ⟨files, pushes, hok, hf2⟩ := ih (fun p hp => h p (List.mem_cons_of_mem _ hp))
    cases hte : alookup te q with
    | none =>
      refine ⟨fi.file :: files, pushes, ?_, List.Forall₂.cons ⟨fi, hfi, rfl⟩ hf2⟩
      simp [processTestFiles, hfi, hok, hte]
    | some errs =>
      refine ⟨fi.file :: files, processFileErrors q fi errs ++ pushes, ?_,
        List.Forall₂.cons ⟨fi, hfi, rfl⟩ hf2⟩
      simp [processTestFiles, hfi, hok, hte]

/-- C3 counterexample: with a single requested file whose definition
collection yields null, the collected tests record is empty and
prepareResults throws (the destructuring of an absent record entry), so no
snapshot at all is produced — in particular none whose files sequence holds
one record per requested file. -/
theorem c3_counterexample :
    collectTests ctx3 = [] ∧
    prepareResults ctx3 gEx (some (collectTests ctx3)) "" = Except.error () :=
  ⟨rfl, rfl⟩

/-- C3 amended: provided definition collection succeeded for every requested
file (the tests record has an entry for each), prepareResults succeeds and
its files sequence holds exactly one FileRecord per requested file, in the
order requested (with duplicates collapsed by the Set construction),
including files with zero diagnostics; when an entry is missing, the
pipeline throws instead and produces no snapshot. -/
theorem c3_amended_files (ctx : Ctx) (g : GlobalState) (tests : List (String × FileInformation))
    (output : String) (h : ∀ p ∈ dedupe ctx.files, (alookup tests p).isSome) :
    ∃ r, prepareResults ctx g (some tests) output = Except.ok r ∧
      List.Forall₂ (fun p f => ∃ fi, alookup tests p = some fi ∧ f = fi.file)
        (dedupe ctx.files) r.files := by
  obtain ⟨files, pushes, hok, hf2⟩ :=
    processTestFiles_ok tests (parseTscLikeOutputSt ctx g output).1 (dedupe ctx.files) h
  refine ⟨{ files := files,
            sourceErrors := collectSourceErrors (dedupe ctx.files) (parseTscLikeOutputSt ctx g output).1,
            pushes := pushes }, ?_, hf2⟩
  simp only [prepareResults, hok]

/-- Witness for C3 amended at a concrete input: ctx5 requests a.ts, tests5
holds its record, and the published files list is exactly that record. -/
theorem c3_amended_files_witness :
    ∃ r, prepareResults ctx5 gEx (some tests5) "o" = Except.ok r ∧
      List.Forall₂ (fun p f => ∃ fi, alookup tests5 p = some fi ∧ f = fi.file)
        (dedupe ctx5.files) r.files :=
  c3_amended_files ctx5 gEx tests5 "o" (by decide)

theorem mem_mapSet {α : Type} (l : List (String × α)) (k : String) (v : α) :
    ∀ x ∈ mapSet l k v, x ∈ l ∨ x = (k, v) := by
  induction l with
  | nil => intro x hx; simp [mapSet] at hx; exact Or.inr hx
  | cons h t ih =>
    intro x hx
    by_cases hk : h.1 = k
    · obtain ⟨k1, v1⟩ := h
      simp only [mapSet, if_pos hk] at hx
      rcases List.mem_cons.mp hx with rfl | hx2
      · exact Or.inr rfl
      · exact Or.inl (List.mem_cons_of_mem _ hx2)
    · obtain ⟨k1, v1⟩ := h
      simp only [mapSet, if_neg hk] at hx
      rcases List.mem_cons.mp hx with rfl | hx2
      · exact Or.inl (List.mem_cons_self _ _)
      · rcases ih x hx2 with h3 | h3
        · exact Or.inl (List.mem_cons_of_mem _ h3)
        · exact Or.inr h3

theorem buildSuiteErrors_spec (fp : String) :
    ∀ (infos : List TscErrorInfo) (g : GlobalState),
      (buildSuiteErrors fp g infos).2 = g ∧
      ∀ pair ∈ (buildSuiteErrors fp g infos).1,
        pair.error.stacks = [frameOf fp pair.originalError] := by
  intro infos
  induction infos with
  | nil => intro g; exact ⟨rfl, by simp [buildSuiteErrors]⟩
  | cons info rest ih =>
    intro g
    obtain ⟨hg, hall⟩ := ih (buildTypeCheckError g fp info).2
    constructor
    · simp only [buildSuiteErrors]
      rw [hg]
      rfl
    · intro pair hpair
      simp only [buildSuiteErrors] at hpair
      rcases List.mem_cons.mp hpair with rfl | h2
      · rfl
      · exact hall pair h2

theorem parseEntriesAux_spec (ctx : Ctx) :
    ∀ (entries : List (String × List TscErrorInfo)) (g : GlobalState)
      (acc : List (String × List ErrorPair)),
      (∀ e ∈ acc, ∀ pair ∈ e.2, pair.error.stacks = [frameOf e.1 pair.originalError]) →
      (parseEntriesAux ctx g entries acc).2 = g ∧
      ∀ e ∈ (parseEntriesAux ctx g entries acc).1, ∀ pair ∈ e.2,
        pair.error.stacks = [frameOf e.1 pair.originalError] := by
  intro entries
  induction entries with
  | nil => intro g acc hacc; exact ⟨rfl, hacc⟩
  | cons entry rest ih =>
    intro g acc hacc
    obtain ⟨path, errors⟩ := entry
    obtain ⟨hg, hpairs⟩ := buildSuiteErrors_spec (ctx.resolve path) errors g
    have hacc2 : ∀ e ∈ mapSet acc (ctx.resolve path) (buildSuiteErrors (ctx.resolve path) g errors).1,
        ∀ pair ∈ e.2, pair.error.stacks = [frameOf e.1 pair.originalError] := by
      intro e he pair hpair
      rcases mem_mapSet _ _ _ e he with h2 | h2
      · exact hacc e h2 pair hpair
      · subst h2
        exact hpairs pair hpair
    obtain ⟨hg2, hall⟩ := ih (buildSuiteErrors (ctx.resolve path) g errors).2
      (mapSet acc (ctx.resolve path) (buildSuiteErrors (ctx.resolve path) g errors).1) hacc2
    constructor
    · simp only [parseEntriesAux]
      rw [hg2, hg]
    · simpa only [parseEntriesAux] using hall

/-- C10: creating synthesized TypeCheckErrors never perturbs the global
stack-trace limit observably — each single creation restores it, and the
whole parse leaves it at its prior value — and every synthesized error
carries exactly one explicitly built stack frame holding the resolved file
(the key its entry is stored under), the reported line and the reported
column. -/
theorem c10_stack_trace_limit (ctx : Ctx) (g : GlobalState) (output : String) :
    (∀ (g2 : GlobalState) (fp : String) (info : TscErrorInfo),
      (buildTypeCheckError g2 fp info).2 = g2) ∧
    (parseTscLikeOutputSt ctx g output).2 = g ∧
    ∀ e ∈ (parseTscLikeOutputSt ctx g output).1, ∀ pair ∈ e.2,
      pair.error.stacks = [frameOf e.1 pair.originalError] := by
  obtain ⟨h1, h2⟩ := parseEntriesAux_spec ctx (ctx.rawErrs output) g [] (by simp)
  exact ⟨fun _ _ _ => rfl, h1, h2⟩

/-- Witness for C10 at a concrete input: the parse of ctx5 restores the
limit and the a.ts error pair carries exactly the one expected frame. -/
theorem c10_stack_trace_limit_witness :
    (parseTscLikeOutputSt ctx5 gEx "x").2 = gEx ∧
    pairExA.error.stacks = [frameOf "a.ts" pairExA.originalError] :=
  ⟨(c10_stack_trace_limit ctx5 gEx "x").2.1,
   (c10_stack_trace_limit ctx5 gEx "x").2.2 ("a.ts", [pairExA]) (by decide) pairExA (by decide)⟩

theorem buildTasks_path_file (path : String) (file : FileNode) (sd : List Definition)
    (im : List (String × Nat)) (mp : Option (List SMapping)) :
    ∀ (errors : List ErrorPair) (k : Nat), ∀ pe ∈ buildTasks path file sd im mp k errors,
      pe.path = path ∧ pe.task.file = file := by
  intro errors
  induction errors with
  | nil => intro k pe hpe; cases hpe
  | cons pair rest ih =>
    intro k pe hpe
    simp only [buildTasks] at hpe
    rcases List.mem_cons.mp hpe with rfl | h2
    · exact ⟨rfl, rfl⟩
    · exact ih (k + 1) pe h2

theorem buildTasks_length (path : String) (file : FileNode) (sd : List Definition)
    (im : List (String × Nat)) (mp : Option (List SMapping)) :
    ∀ (errors : List ErrorPair) (k : Nat),
      (buildTasks path file sd im mp k errors).length = errors.length := by
  intro errors
  induction errors with
  | nil => intro k; rfl
  | cons pair rest ih =>
    intro k
    simp only [buildTasks, List.length_cons, ih (k + 1)]

theorem dedupeAux_spec : ∀ (l seen : List String),
    (∀ x ∈ dedupeAux seen l, x ∉ seen) ∧ (dedupeAux seen l).Nodup := by
  intro l
  induction l with
  | nil => intro seen; exact ⟨fun x hx => absurd hx (List.not_mem_nil x), List.nodup_nil⟩
  | cons a t ih =>
    intro seen
    by_cases ha : a ∈ seen
    · simpa only [dedupeAux, if_pos ha] using ih seen
    · obtain ⟨hnotin, hnodup⟩ := ih (a :: seen)
      simp only [dedupeAux, if_neg ha]
      constructor
      · intro x hx
        rcases List.mem_cons.mp hx with rfl | h2
        · exact ha
        · exact fun hs => hnotin x h2 (List.mem_cons_of_mem _ hs)
      · refine List.nodup_cons.mpr ⟨?_, hnodup⟩
        intro hmem
        exact hnotin a hmem (List.mem_cons_self _ _)

theorem dedupe_nodup (l : List String) : (dedupe l).Nodup :=
  (dedupeAux_spec l []).2

theorem mapSet_keys_nodup {α : Type} (l : List (String × α)) (k : String) (v : α) :
    (l.map Prod.fst).Nodup → ((mapSet l k v).map Prod.fst).Nodup := by
  induction l with
  | nil => intro _; simp [mapSet]
  | cons h t ih =>
    intro hnd
    obtain ⟨k1, v1⟩ := h
    simp only [List.map_cons, List.nodup_cons] at hnd
    by_cases hk : k1 = k
    · subst hk
      simpa [mapSet] using hnd
    · simp only [mapSet, if_neg hk, List.map_cons, List.nodup_cons]
      refine ⟨?_, ih hnd.2⟩
      intro hmem
      rcases List.mem_map.mp hmem with ⟨x, hx, hfst⟩
      rcases mem_mapSet t k v x hx with h2 | h2
      · exact hnd.1 (hfst ▸ List.mem_map_of_mem Prod.fst h2)
      · subst h2
        exact hk hfst.symm

theorem parseEntriesAux_keys_nodup (ctx : Ctx) :
    ∀ (entries : List (String × List TscErrorInfo)) (g : GlobalState)
      (acc : List (String × List ErrorPair)),
      (acc.map Prod.fst).Nodup → ((parseEntriesAux ctx g entries acc).1.map Prod.fst).Nodup := by
  intro entries
  induction entries with
  | nil => intro g acc h; exact h
  | cons entry rest ih =>
    intro g acc h
    obtain ⟨path, errors⟩ := entry
    simp only [parseEntriesAux]
    exact ih _ _ (mapSet_keys_nodup _ _ _ h)

theorem alookup_of_mem_nodup {α : Type} :
    ∀ (l : List (String × α)) (k : String) (v : α),
      (l.map Prod.fst).Nodup → (k, v) ∈ l → alookup l k = some v := by
  intro l
  induction l with
  | nil => intro k v _ hmem; cases hmem
  | cons h t ih =>
    intro k v hnd hmem
    obtain ⟨k1, v1⟩ := h
    simp only [List.map_cons, List.nodup_cons] at hnd
    rcases List.mem_cons.mp hmem with heq | h2
    · have hk : k = k1 := congrArg Prod.fst heq
      have hv : v = v1 := congrArg Prod.snd heq
      subst hk
      subst hv
      simp [alookup]
    · have hne : k1 ≠ k := by
        intro rfl2
        exact hnd.1 (rfl2 ▸ List.mem_map_of_mem Prod.fst h2)
      simp only [alookup, if_neg hne]
      exact ih k v hnd.2 h2

theorem processTestFiles_spec (tests : List (String × FileInformation))
    (te : List (String × List ErrorPair)) :
    ∀ paths : List String, paths.Nodup → (∀ p ∈ paths, (alookup tests p).isSome) →
      ∃ files pushes, processTestFiles tests te paths = Except.ok (files, pushes) ∧
        (∀ pe ∈ pushes, pe.path ∈ paths ∧ pe.task.file ∈ files) ∧
        ∀ p ∈ paths, (pushes.filter (fun pe => decide (pe.path = p))).length =
          (match alookup te p with
           | some errs => errs.length
           | none => 0) := by
  intro paths
  induction paths with
  | nil => exact fun _ _ => ⟨[], [], rfl, fun pe hpe => absurd hpe (List.not_mem_nil pe), by simp⟩
  | cons q rest ih =>
    intro hnd h
    obtain ⟨hq, hrest⟩ := List.nodup_cons.mp hnd
    obtain ⟨fi, hfi⟩ := Option.isSome_iff_exists.mp (h q (List.mem_cons_self _ _))
    obtain ⟨files, pushes, hok, hmem, hcount⟩ :=
      ih hrest (fun p hp => h p (List.mem_cons_of_mem _ hp))
    have hq_pushes : ∀ pe ∈ pushes, pe.path ≠ q := by
      intro pe hpe heq
      exact hq (heq ▸ (hmem pe hpe).1)
    cases hte : alookup te q with
    | none =>
      refine ⟨fi.file :: files, pushes, by simp [processTestFiles, hfi, hok, hte], ?_, ?_⟩
      · intro pe hpe
        obtain ⟨h1, h2⟩ := hmem pe hpe
        exact ⟨List.mem_cons_of_mem _ h1, List.mem_cons_of_mem _ h2⟩
      · intro p hp
        rcases List.mem_cons.mp hp with rfl | hp2
        · rw [hte]
          simp only [List.length_eq_zero, List.filter_eq_nil_iff]
          intro pe hpe
          simp [hq_pushes pe hpe]
        · exact hcount p hp2
    | some errs =>
      refine ⟨fi.file :: files, processFileErrors q fi errs ++ pushes,
        by simp [processTestFiles, hfi, hok, hte], ?_, ?_⟩
      · intro pe hpe
        rcases List.mem_append.mp hpe with h1 | h1
        · obtain ⟨hp, hf⟩ := buildTasks_path_file q fi.file _ _ fi.map errs 0 pe h1
          exact ⟨hp ▸ List.mem_cons_self _ _, hf ▸ List.mem_cons_self _ _⟩
        · obtain ⟨h2, h3⟩ := hmem pe h1
          exact ⟨List.mem_cons_of_mem _ h2, List.mem_cons_of_mem _ h3⟩
      · intro p hp
        rw [List.filter_append, List.length_append]
        rcases List.mem_cons.mp hp with rfl | hp2
        · have hfe : (processFileErrors p fi errs).filter (fun pe => decide (pe.path = p)) =
              processFileErrors p fi errs := by
            rw [List.filter_eq_self]
            intro pe hpe
            simp [(buildTasks_path_file p fi.file _ _ fi.map errs 0 pe hpe).1]
          have hz : (pushes.filter (fun pe => decide (pe.path = p))).length = 0 := by
            simp only [List.length_eq_zero, List.filter_eq_nil_iff]
            intro pe hpe
            simp [hq_pushes pe hpe]
          rw [hfe, hz, hte]
          simp [processFileErrors, buildTasks_length]
        · have hz : ((processFileErrors q fi errs).filter
              (fun pe => decide (pe.path = p))).length = 0 := by
            simp only [List.length_eq_zero, List.filter_eq_nil_iff]
            intro pe hpe
            have hpath := (buildTasks_path_file q fi.file _ _ fi.map errs 0 pe hpe).1
            have hqp : q ≠ p := fun h2 => hq (h2 ▸ hp2)
            simp [hpath, hqp]
          rw [hz, hcount p hp2, Nat.zero_add]

theorem mem_collectSourceErrors_of (tf : List String) :
    ∀ (te : List (String × List ErrorPair)) (p : String) (errs : List ErrorPair)
      (pair : ErrorPair), (p, errs) ∈ te → p ∉ tf → pair ∈ errs →
      pair.error ∈ collectSourceErrors tf te := by
  intro te
  induction te with
  | nil => intro p errs pair hmem; cases hmem
  | cons e rest ih =>
    intro p errs pair hmem hp hpair
    obtain ⟨q, es⟩ := e
    rcases List.mem_cons.mp hmem with heq | h2
    · have hqp : p = q := congrArg Prod.fst heq
      have hes : errs = es := congrArg Prod.snd heq
      subst hqp; subst hes
      simp only [collectSourceErrors, if_neg hp]
      exact List.mem_append_left _ (List.mem_map_of_mem _ hpair)
    · by_cases hq : q ∈ tf
      · simpa only [collectSourceErrors, if_pos hq] using ih p errs pair h2 hp hpair
      · simp only [collectSourceErrors, if_neg hq]
        exact List.mem_append_right _ (ih p errs pair h2 hp hpair)

theorem mem_collectSourceErrors_inv (tf : List String) :
    ∀ (te : List (String × List ErrorPair)) (e : TypeCheckError),
      e ∈ collectSourceErrors tf te →
      ∃ q es pair, (q, es) ∈ te ∧ q ∉ tf ∧ pair ∈ es ∧ e = pair.error := by
  intro te
  induction te with
  | nil => intro e he; cases he
  | cons entry rest ih =>
    intro e he
    obtain ⟨q, es⟩ := entry
    by_cases hq : q ∈ tf
    · rw [collectSourceErrors, if_pos hq] at he
      obtain ⟨q2, es2, pair, h1, h2, h3, h4⟩ := ih e he
      exact ⟨q2, es2, pair, List.mem_cons_of_mem _ h1, h2, h3, h4⟩
    · rw [collectSourceErrors, if_neg hq] at he
      rcases List.mem_append.mp he with h1 | h1
      · obtain ⟨pair, hpair, hpe⟩ := List.mem_map.mp h1
        exact ⟨q, es, pair, List.mem_cons_self _ _, hq, hpair, hpe.symm⟩
      · obtain ⟨q2, es2, pair, h2, h3, h4, h5⟩ := ih e h1
        exact ⟨q2, es2, pair, List.mem_cons_of_mem _ h2, h3, h4, h5⟩

theorem frameOf_file_eq {p q : String} {i j : TscErrorInfo} (h : frameOf p i = frameOf q j) :
    p = q := congrArg ParsedStack.file h

/-- C5: every parsed diagnostic is classified exactly one way. Under the
sole proviso that collection succeeded for the requested files, the build
succeeds; every push lands on a requested path with its file in the output;
a parsed entry for a requested path yields exactly one push per diagnostic
and none of its errors reaches sourceErrors; a parsed entry for an
unrequested path puts every error into sourceErrors and yields no push. -/
theorem c5_classification (ctx : Ctx) (g : GlobalState) (tests : List (String × FileInformation))
    (output : String) (h : ∀ p ∈ dedupe ctx.files, (alookup tests p).isSome) :
    ∃ r, prepareResults ctx g (some tests) output = Except.ok r ∧
      (∀ pe ∈ r.pushes, pe.path ∈ dedupe ctx.files ∧ pe.task.file ∈ r.files) ∧
      ∀ p errs, (p, errs) ∈ (parseTscLikeOutputSt ctx g output).1 →
        (p ∈ dedupe ctx.files →
          (r.pushes.filter (fun pe => decide (pe.path = p))).length = errs.length ∧
          ∀ pair ∈ errs, pair.error ∉ r.sourceErrors) ∧
        (p ∉ dedupe ctx.files →
          (∀ pair ∈ errs, pair.error ∈ r.sourceErrors) ∧ ∀ pe ∈ r.pushes, pe.path ≠ p) := by
  have hkeys : ((parseTscLikeOutputSt ctx g output).1.map Prod.fst).Nodup :=
    parseEntriesAux_keys_nodup ctx (ctx.rawErrs output) g [] (by simp)
  have hstacks := (c10_stack_trace_limit ctx g output).2.2
  obtain ⟨files, pushes, hok, hmem, hcount⟩ :=
    processTestFiles_spec tests (parseTscLikeOutputSt ctx g output).1 (dedupe ctx.files)
      (dedupe_nodup _) h
  refine ⟨{ files := files,
            sourceErrors := collectSourceErrors (dedupe ctx.files) (parseTscLikeOutputSt ctx g output).1,
            pushes := pushes }, by simp only [prepareResults, hok], hmem, ?_⟩
  intro p errs hentry
  constructor
  · intro hp
    refine ⟨?_, ?_⟩
    · rw [hcount p hp, alookup_of_mem_nodup _ p errs hkeys hentry]
    · intro pair hpair hsrc
      obtain ⟨q, es, pair2, hq1, hq2, hq3, hq4⟩ :=
        mem_collectSourceErrors_inv (dedupe ctx.files) (parseTscLikeOutputSt ctx g output).1
          pair.error hsrc
      have hs1 : pair.error.stacks = [frameOf p pair.originalError] :=
        hstacks (p, errs) hentry pair hpair
      have hs2 : pair2.error.stacks = [frameOf q pair2.originalError] :=
        hstacks (q, es) hq1 pair2 hq3
      have : frameOf p pair.originalError = frameOf q pair2.originalError := by
        have := hs1 ▸ hq4 ▸ hs2
        injection this
      exact hq2 (frameOf_file_eq this ▸ hp)
  · intro hp
    refine ⟨?_, ?_⟩
    · intro pair hpair
      exact mem_collectSourceErrors_of (dedupe ctx.files) _ p errs pair hentry hp hpair
    · intro pe hpe heq
      exact hp (heq ▸ (hmem pe hpe).1)

theorem flagAfter_append (b : Bool) (l1 l2 : List WEvent) :
    flagAfter b (l1 ++ l2) = flagAfter (flagAfter b l1) l2 := by
  simp [flagAfter, List.foldl_append]

theorem okTrace_append : ∀ (l1 : List WEvent) (b : Bool) (l2 : List WEvent),
    okTrace b (l1 ++ l2) = (okTrace b l1 && okTrace (flagAfter b l1) l2) := by
  intro l1
  induction l1 with
  | nil => intro b l2; simp [okTrace, flagAfter]
  | cons e t ih =>
    intro b l2
    cases e with
    | rerun => simp [okTrace, ih, flagAfter, Bool.and_assoc]
    | passComplete => simp [okTrace, ih, flagAfter]
    | parseEnd a => simp [okTrace, ih, flagAfter]

theorem rerunCheck_output (s : WatchState) : (rerunCheck s).output = s.output := by
  unfold rerunCheck
  split <;> rfl

theorem rerunCheck_published (s : WatchState) : (rerunCheck s).published = s.published := by
  unfold rerunCheck
  split <;> rfl

theorem rerunCheck_resultAddr (s : WatchState) : (rerunCheck s).resultAddr = s.resultAddr := by
  unfold rerunCheck
  split <;> rfl

theorem rerunCheck_store_length (s : WatchState) :
    (rerunCheck s).store.length = s.store.length := by
  unfold rerunCheck
  split
  · simp [List.length_set]
  · rfl

theorem rerunCheck_store_get (s : WatchState) (addr : Nat) (h : addr ≠ s.resultAddr) :
    (rerunCheck s).store[addr]? = s.store[addr]? := by
  unfold rerunCheck
  split
  · exact List.getElem?_set_ne (Ne.symm h)
  · rfl

theorem rerunCheck_spec (s : WatchState) :
    ∃ new, (rerunCheck s).events = s.events ++ new ∧
      okTrace s.rerunTriggered new = true ∧
      flagAfter s.rerunTriggered new = (rerunCheck s).rerunTriggered := by
  by_cases hc : (includesSub s.output "File change detected" && !s.rerunTriggered) = true
  · have hinc : includesSub s.output "File change detected" = true :=
      ((Bool.and_eq_true _ _).mp hc).1
    have hflag : s.rerunTriggered = false := by
      have := (Bool.and_eq_true _ _).mp hc
      simpa using this.2
    refine ⟨[WEvent.rerun], ?_, ?_, ?_⟩ <;>
      simp [rerunCheck, hinc, hflag, okTrace, flagAfter]
  · refine ⟨[], ?_, ?_, ?_⟩ <;> simp [rerunCheck, hc, okTrace, flagAfter]

theorem publishResult_rerunTriggered (s : WatchState) (r : Except Unit PreparedResults) :
    (publishResult s r).rerunTriggered = s.rerunTriggered := by
  cases r <;> rfl

theorem publishResult_store_get (s : WatchState) (r : Except Unit PreparedResults) (addr : Nat)
    (h : addr < s.store.length) : (publishResult s r).store[addr]? = s.store[addr]? := by
  cases r with
  | ok result => simp [publishResult, List.getElem?_append, h]
  | error e => rfl

theorem publishResult_published (s : WatchState) (r : Except Unit PreparedResults) :
    (publishResult s r).published = s.published ∨
      ∃ a, (publishResult s r).published = s.published ++ [a] ∧ s.store[a]? = none := by
  cases r with
  | ok result =>
    exact Or.inr ⟨s.store.length, rfl, List.getElem?_eq_none (Nat.le_refl _)⟩
  | error e => exact Or.inl rfl

theorem passCompleteCheck_spec (ctx : Ctx) (g : GlobalState) (s : WatchState) :
    ∃ new, (passCompleteCheck ctx g s).events = s.events ++ new ∧
      okTrace s.rerunTriggered new = true ∧
      flagAfter s.rerunTriggered new = (passCompleteCheck ctx g s).rerunTriggered := by
  by_cases hf : foundErrorsWatching s.output = true
  · cases hp : prepareResults ctx g
        (some (match s.tests with | some t => t | none => collectTests ctx)) s.output with
    | ok result =>
      refine ⟨[WEvent.passComplete, WEvent.parseEnd s.store.length], ?_, ?_, ?_⟩ <;>
        simp [passCompleteCheck, hf, publishResult, hp, okTrace, flagAfter]
    | error e =>
      refine ⟨[WEvent.passComplete], ?_, ?_, ?_⟩ <;>
        simp [passCompleteCheck, hf, publishResult, hp, okTrace, flagAfter]
  · refine ⟨[], ?_, ?_, ?_⟩ <;> simp [passCompleteCheck, hf, okTrace, flagAfter]

theorem passCompleteCheck_store_get (ctx : Ctx) (g : GlobalState) (s : WatchState) (addr : Nat)
    (h : addr < s.store.length) :
    (passCompleteCheck ctx g s).store[addr]? = s.store[addr]? := by
  unfold passCompleteCheck
  split
  · exact publishResult_store_get _ _ addr h
  · rfl

theorem passCompleteCheck_published (ctx : Ctx) (g : GlobalState) (s : WatchState) :
    (passCompleteCheck ctx g s).published = s.published ∨
      ∃ a, (passCompleteCheck ctx g s).published = s.published ++ [a] ∧ s.store[a]? = none := by
  unfold passCompleteCheck
  split
  · exact publishResult_published _ _
  · exact Or.inl rfl

theorem stepChunk_spec (ctx : Ctx) (g : GlobalState) (s : WatchState) (chunk : String) :
    ∃ new, (stepChunk ctx g s chunk).events = s.events ++ new ∧
      okTrace s.rerunTriggered new = true ∧
      flagAfter s.rerunTriggered new = (stepChunk ctx g s chunk).rerunTriggered := by
  obtain ⟨n1, he1, hok1, hf1⟩ := rerunCheck_spec (appendChunk s chunk)
  obtain ⟨n2, he2, hok2, hf2⟩ := passCompleteCheck_spec ctx g (rerunCheck (appendChunk s chunk))
  refine ⟨n1 ++ n2, ?_, ?_, ?_⟩
  · show (passCompleteCheck ctx g (rerunCheck (appendChunk s chunk))).events = _
    rw [he2, he1]
    show s.events ++ n1 ++ n2 = s.events ++ (n1 ++ n2)
    rw [List.append_assoc]
  · rw [okTrace_append]
    have h1 : okTrace s.rerunTriggered n1 = true := hok1
    have h2 : okTrace (flagAfter s.rerunTriggered n1) n2 = true := by
      have hf1' : flagAfter s.rerunTriggered n1 = (rerunCheck (appendChunk s chunk)).rerunTriggered := hf1
      rw [hf1']
      exact hok2
    rw [h1, h2]
    rfl
  · rw [flagAfter_append]
    have hf1' : flagAfter s.rerunTriggered n1 = (rerunCheck (appendChunk s chunk)).rerunTriggered := hf1
    rw [hf1']
    exact hf2

theorem runChunks_okTrace (ctx : Ctx) (g : GlobalState) :
    ∀ (chunks : List String) (s : WatchState),
      okTrace false s.events = true → flagAfter false s.events = s.rerunTriggered →
      okTrace false (runChunks ctx g s chunks).events = true ∧
      flagAfter false (runChunks ctx g s chunks).events =
        (runChunks ctx g s chunks).rerunTriggered := by
  intro chunks
  induction chunks with
  | nil => intro s h1 h2; exact ⟨h1, h2⟩
  | cons c cs ih =>
    intro s h1 h2
    obtain ⟨new, he, hok, hf⟩ := stepChunk_spec ctx g s c
    have h1a : okTrace false (stepChunk ctx g s c).events = true := by
      rw [he, okTrace_append, h1, h2, hok]
      rfl
    have h2a : flagAfter false (stepChunk ctx g s c).events = (stepChunk ctx g s c).rerunTriggered := by
      rw [he, flagAfter_append, h2, hf]
    exact ih (stepChunk ctx g s c) h1a h2a

/-- C9: in watch mode the rerun callback fires exactly once per
change-to-completion cycle. First, over every chunk sequence from a
consistent state, the emitted trace never holds two rerun events without an
intervening pass-complete (okTrace). Second, a chunk completing a pass
always clears the duplicate-trigger flag and resets the buffer. Third, from
a clear flag, a buffer holding the file change marker fires onWatcherRerun
as the next event. -/
theorem c9_rerun_once_per_cycle :
    (∀ (ctx : Ctx) (g : GlobalState) (s : WatchState) (chunks : List String),
      okTrace false s.events = true → flagAfter false s.events = s.rerunTriggered →
      okTrace false (runChunks ctx g s chunks).events = true) ∧
    (∀ (ctx : Ctx) (g : GlobalState) (s : WatchState) (chunk : String),
      foundErrorsWatching (s.output ++ chunk) = true →
      (stepChunk ctx g s chunk).rerunTriggered = false ∧
      (stepChunk ctx g s chunk).output = "") ∧
    (∀ (ctx : Ctx) (g : GlobalState) (s : WatchState) (chunk : String),
      s.rerunTriggered = false →
      includesSub (s.output ++ chunk) "File change detected" = true →
      ∃ tail, (stepChunk ctx g s chunk).events = s.events ++ WEvent.rerun :: tail) := by
  refine ⟨?_, ?_, ?_⟩
  · intro ctx g s chunks h1 h2
    exact (runChunks_okTrace ctx g chunks s h1 h2).1
  · intro ctx g s chunk h
    have hf2 : foundErrorsWatching (rerunCheck (appendChunk s chunk)).output = true := by
      rw [rerunCheck_output]
      exact h
    constructor
    · show (passCompleteCheck ctx g (rerunCheck (appendChunk s chunk))).rerunTriggered = false
      simp only [passCompleteCheck, hf2, if_true]
      exact publishResult_rerunTriggered _ _
    · show (passCompleteCheck ctx g (rerunCheck (appendChunk s chunk))).output = ""
      simp only [passCompleteCheck, hf2, if_true]
  · intro ctx g s chunk hflag hinc
    have he1 : (rerunCheck (appendChunk s chunk)).events = s.events ++ [WEvent.rerun] := by
      simp [rerunCheck, appendChunk, hinc, hflag]
    obtain ⟨n2, he2, _, _⟩ := passCompleteCheck_spec ctx g (rerunCheck (appendChunk s chunk))
    refine ⟨n2, ?_⟩
    show (passCompleteCheck ctx g (rerunCheck (appendChunk s chunk))).events = _
    rw [he2, he1, List.append_assoc]
    rfl

/-- Witness for C9 at concrete inputs: a full cycle followed by a second
change marker keeps the trace well formed, a pass-complete chunk clears flag
and buffer, and a change marker from a clear flag fires the rerun first. -/
theorem c9_rerun_once_per_cycle_witness :
    okTrace false (runChunks ctxW gEx initWatchState
      ["File change detected", "x Found 1 error. Watching for y"]).events = true ∧
    ((stepChunk ctxW gEx initWatchState "Found 0 errors. Watching for z").rerunTriggered = false ∧
      (stepChunk ctxW gEx initWatchState "Found 0 errors. Watching for z").output = "") ∧
    ∃ tail, (stepChunk ctxW gEx initWatchState "File change detected").events =
      initWatchState.events ++ WEvent.rerun :: tail :=
  ⟨c9_rerun_once_per_cycle.1 ctxW gEx initWatchState _ (by decide) (by decide),
   c9_rerun_once_per_cycle.2.1 ctxW gEx initWatchState _ (by decide),
   c9_rerun_once_per_cycle.2.2 ctxW gEx initWatchState _ (by decide) (by decide)⟩

/-- C2 counterexample: a completed pass publishes the snapshot at address 1
holding the record of a.ts; the next chunk detects a rerun and, without any
new publish, the object at the same published address now holds empty files
and sourceErrors: the published snapshot was mutated in place by the
watch-mode clearing, not replaced. -/
theorem c2_counterexample :
    (runChunks ctxW gEx startW ["Found 0 errors. Watching for changes."]).published = [1] ∧
    (runChunks ctxW gEx startW ["Found 0 errors. Watching for changes."]).store[1]? =
      some { files := [fileEx], sourceErrors := [] } ∧
    (runChunks ctxW gEx startW
        ["Found 0 errors. Watching for changes.", "File change detected"]).published = [1] ∧
    (runChunks ctxW gEx startW
        ["Found 0 errors. Watching for changes.", "File change detected"]).store[1]? =
      some { files := [], sourceErrors := [] } ∧
    ({ files := [fileEx], sourceErrors := [] } : ErrorsCacheV) ≠
      { files := [], sourceErrors := [] } := by decide

/-- C2 amended: each publish does replace the snapshot wholesale — the only
addresses ever published are fresh ones, holding newly allocated objects —
but the rerun-detected clearing mutates the currently pointed-at snapshot
(the most recently published one) in place; every published snapshot other
than the current one is left untouched by a step. -/
theorem c2_amended_publish (ctx : Ctx) (g : GlobalState) (s : WatchState) (chunk : String) :
    (∀ addr, addr ∈ s.published → addr ≠ s.resultAddr → addr < s.store.length →
      (stepChunk ctx g s chunk).store[addr]? = s.store[addr]?) ∧
    ((stepChunk ctx g s chunk).published = s.published ∨
      ∃ a, (stepChunk ctx g s chunk).published = s.published ++ [a] ∧ s.store[a]? = none) := by
  constructor
  · intro addr _ hne hlt
    have e1 : (rerunCheck (appendChunk s chunk)).store[addr]? = s.store[addr]? :=
      rerunCheck_store_get (appendChunk s chunk) addr hne
    have hlen : addr < (rerunCheck (appendChunk s chunk)).store.length := by
      rw [rerunCheck_store_length]
      exact hlt
    show (passCompleteCheck ctx g (rerunCheck (appendChunk s chunk))).store[addr]? = _
    rw [passCompleteCheck_store_get ctx g _ addr hlen, e1]
  · rcases passCompleteCheck_published ctx g (rerunCheck (appendChunk s chunk)) with h | ⟨a, ha, hn⟩
    · left
      show (passCompleteCheck ctx g (rerunCheck (appendChunk s chunk))).published = _
      rw [h, rerunCheck_published]
      rfl
    · right
      refine ⟨a, ?_, ?_⟩
      · show (passCompleteCheck ctx g (rerunCheck (appendChunk s chunk))).published = _
        rw [ha, rerunCheck_published]
        rfl
      · have hlen2 : (rerunCheck (appendChunk s chunk)).store.length ≤ a :=
          List.getElem?_eq_none_iff.mp hn
        rw [rerunCheck_store_length] at hlen2
        exact List.getElem?_eq_none hlen2

/-- Witness for C2 amended at a concrete input: in stateTwo the published
address 0 differs from the current address 1 and survives a rerun-detecting
step unchanged. -/
theorem c2_amended_publish_witness :
    (stepChunk ctxW gEx stateTwo "File change detected").store[0]? = stateTwo.store[0]? ∧
    ((stepChunk ctxW gEx stateTwo "File change detected").published = stateTwo.published ∨
      ∃ a, (stepChunk ctxW gEx stateTwo "File change detected").published =
        stateTwo.published ++ [a] ∧ stateTwo.store[a]? = none) :=
  ⟨(c2_amended_publish ctxW gEx stateTwo "File change detected").1 0 (by decide) (by decide)
      (by decide),
   (c2_amended_publish ctxW gEx stateTwo "File change detected").2⟩

/-- Witness for C5 at a concrete input: ctx5 with tests5 covers the
requested file, so the classification conjunction holds there. -/
theorem c5_classification_witness :
    ∃ r, prepareResults ctx5 gEx (some tests5) "o" = Except.ok r ∧
      (∀ pe ∈ r.pushes, pe.path ∈ dedupe ctx5.files ∧ pe.task.file ∈ r.files) ∧
      ∀ p errs, (p, errs) ∈ (parseTscLikeOutputSt ctx5 gEx "o").1 →
        (p ∈ dedupe ctx5.files →
          (r.pushes.filter (fun pe => decide (pe.path = p))).length = errs.length ∧
          ∀ pair ∈ errs, pair.error ∉ r.sourceErrors) ∧
        (p ∉ dedupe ctx5.files →
          (∀ pair ∈ errs, pair.error ∈ r.sourceErrors) ∧ ∀ pe ∈ r.pushes, pe.path ≠ p) :=
  c5_classification ctx5 gEx tests5 "o" (by decide)

end Vitest
